import Mathlib

/-!
A verification development for the SeedCore BitTorrent client core.

Each Rust module relevant to the checked specification sentences is given a
shallow embedding: machine integers become `Nat`/`Int` (with explicit wrapping
where the source relies on it), `Vec<u8>` becomes `List Nat` (each entry a
byte value), `HashMap`/`HashSet` become association lists / duplicate-free
lists with the same `get`/`insert` semantics, and fallible Rust functions
return `Except`.
-/

set_option maxHeartbeats 1000000
set_option maxRecDepth 10000

namespace SeedCore

/-! ## Bitfield (src/src-tauri/src/piece/bitfield.rs)

Each bit records whether we have a specific piece, most significant bit first
within each byte. -/

structure Bitfield where
  /-- Bytes storing the bitfield, each byte represents 8 pieces. -/
  bytes : List Nat
  /-- Total number of pieces (may not be a multiple of 8). -/
  num_pieces : Nat
deriving Repr, DecidableEq

namespace Bitfield

/-- `Bitfield::new`: empty bitfield of `(num_pieces + 7) / 8` zero bytes. -/
def new (num_pieces : Nat) : Bitfield :=
  { bytes := List.replicate ((num_pieces + 7) / 8) 0, num_pieces := num_pieces }

/-- `Bitfield::has_piece`: test bit `7 - index % 8` of byte `index / 8`
(out-of-range indices read as `false`). -/
def has_piece (bf : Bitfield) (index : Nat) : Bool :=
  if index ≥ bf.num_pieces then false
  else
    let byte_index := index / 8
    let bit_offset := 7 - index % 8
    (bf.bytes.getD byte_index 0) &&& (1 <<< bit_offset) != 0

/-- `Bitfield::set_piece`: OR the addressed bit into its byte
(no-op when the index is out of range). -/
def set_piece (bf : Bitfield) (index : Nat) : Bitfield :=
  if index ≥ bf.num_pieces then bf
  else
    let byte_index := index / 8
    let bit_offset := 7 - index % 8
    { bf with
      bytes := bf.bytes.set byte_index
        ((bf.bytes.getD byte_index 0) ||| (1 <<< bit_offset)) }

/-- `Bitfield::clear_piece`: AND the byte with the complement of the mask.
The Rust `!(1 << bit_offset)` is a `u8` complement, i.e. `255 ^^^ mask`. -/
def clear_piece (bf : Bitfield) (index : Nat) : Bitfield :=
  if index ≥ bf.num_pieces then bf
  else
    let byte_index := index / 8
    let bit_offset := 7 - index % 8
    { bf with
      bytes := bf.bytes.set byte_index
        ((bf.bytes.getD byte_index 0) &&& (255 ^^^ (1 <<< bit_offset))) }

/-- `Bitfield::complete`: set every piece of a fresh bitfield. -/
def complete (num_pieces : Nat) : Bitfield :=
  (List.range num_pieces).foldl (fun bf i => bf.set_piece i) (new num_pieces)

/-- `Bitfield::count_pieces`. -/
def count_pieces (bf : Bitfield) : Nat :=
  ((List.range bf.num_pieces).filter (fun i => bf.has_piece i)).length

/-- `Bitfield::is_complete`. -/
def is_complete (bf : Bitfield) : Bool :=
  bf.count_pieces == bf.num_pieces

/-- `Bitfield::missing_pieces`. -/
def missing_pieces (bf : Bitfield) : List Nat :=
  (List.range bf.num_pieces).filter (fun i => !bf.has_piece i)

/-- `Bitfield::pieces_to_request`: pieces the peer has that we lack. -/
def pieces_to_request (bf : Bitfield) (peer_bitfield : Bitfield) : List Nat :=
  (List.range bf.num_pieces).filter
    (fun i => !bf.has_piece i && peer_bitfield.has_piece i)

end Bitfield

/-! Helper lemmas about single bits of bytes. -/

theorem and_one_shiftLeft_ne_zero (b k : Nat) :
    ((b &&& (1 <<< k)) != 0) = b.testBit k := by
  rw [Nat.shiftLeft_eq, one_mul, Nat.and_two_pow]
  cases h : b.testBit k <;> simp [h, pow_ne_zero]

theorem testBit_lor_two_pow (b k m : Nat) :
    (b ||| (1 <<< k)).testBit m = (b.testBit m || (k == m)) := by
  rw [Nat.shiftLeft_eq, one_mul, Nat.testBit_lor]
  by_cases h : k = m
  · subst h; simp [Nat.testBit_two_pow_self]
  · simp [Nat.testBit_two_pow_of_ne h, h]

theorem testBit_and_mask (b k m : Nat) (hm : m < 8) :
    (b &&& (255 ^^^ (1 <<< k))).testBit m = (b.testBit m && !(k == m)) := by
  rw [Nat.shiftLeft_eq, one_mul, Nat.testBit_and, Nat.testBit_xor]
  have h255 : (255 : Nat) = 2 ^ 8 - 1 := by norm_num
  rw [h255, Nat.testBit_two_pow_sub_one]
  by_cases h : k = m
  · subst h; simp [Nat.testBit_two_pow_self, hm]
  · simp [Nat.testBit_two_pow_of_ne h, h, hm]

namespace Bitfield

theorem has_piece_eq_testBit (bf : Bitfield) (i : Nat) (h : i < bf.num_pieces) :
    bf.has_piece i = (bf.bytes.getD (i / 8) 0).testBit (7 - i % 8) := by
  unfold has_piece
  rw [if_neg (by omega)]
  exact and_one_shiftLeft_ne_zero _ _

theorem byte_index_lt (n i len : Nat) (hwf : (n + 7) / 8 ≤ len) (hi : i < n) :
    i / 8 < len := by omega

/-- Setting piece `i` flips exactly bit `7 - i % 8` of byte `i / 8`:
reading any in-range piece `j` afterwards gives the old value, or `true` at
`j = i`. -/
theorem has_piece_set (bf : Bitfield) (i j : Nat)
    (hwf : (bf.num_pieces + 7) / 8 ≤ bf.bytes.length)
    (hi : i < bf.num_pieces) (hj : j < bf.num_pieces) :
    (bf.set_piece i).has_piece j = (bf.has_piece j || (j == i)) := by
  have hilen : i / 8 < bf.bytes.length := byte_index_lt _ _ _ hwf hi
  unfold set_piece
  rw [if_neg (by omega)]
  rw [has_piece_eq_testBit _ _ (by simpa using hj), has_piece_eq_testBit _ _ hj]
  simp only
  by_cases hb : j / 8 = i / 8
  · rw [hb, List.getD_eq_getElem?_getD, List.getElem?_set_self hilen,
      Option.getD_some, testBit_lor_two_pow]
    congr 1
    rw [Bool.eq_iff_iff]
    simp only [beq_iff_eq]
    omega
  · rw [List.getD_eq_getElem?_getD, List.getElem?_set_ne (fun h => hb h.symm),
      ← List.getD_eq_getElem?_getD]
    have : (j == i) = false := by
      simp only [beq_eq_false_iff_ne]
      omega
    rw [this, Bool.or_false]

/-- Clearing piece `i` clears exactly bit `7 - i % 8` of byte `i / 8`. -/
theorem has_piece_clear (bf : Bitfield) (i j : Nat)
    (hwf : (bf.num_pieces + 7) / 8 ≤ bf.bytes.length)
    (hi : i < bf.num_pieces) (hj : j < bf.num_pieces) :
    (bf.clear_piece i).has_piece j = (bf.has_piece j && !(j == i)) := by
  have hilen : i / 8 < bf.bytes.length := byte_index_lt _ _ _ hwf hi
  unfold clear_piece
  rw [if_neg (by omega)]
  rw [has_piece_eq_testBit _ _ (by simpa using hj), has_piece_eq_testBit _ _ hj]
  simp only
  by_cases hb : j / 8 = i / 8
  · rw [hb, List.getD_eq_getElem?_getD, List.getElem?_set_self hilen,
      Option.getD_some, testBit_and_mask _ _ _ (by omega)]
    congr 1
    congr 1
    rw [Bool.eq_iff_iff]
    simp only [beq_iff_eq]
    omega
  · rw [List.getD_eq_getElem?_getD, List.getElem?_set_ne (fun h => hb h.symm),
      ← List.getD_eq_getElem?_getD]
    have : (j == i) = false := by
      simp only [beq_eq_false_iff_ne]
      omega
    rw [this, Bool.not_false, Bool.and_true]

end Bitfield

/-- **C7.** A bitfield over `n` pieces is stored in exactly `⌈n/8⌉` bytes,
most-significant bit first within each byte: for every in-range index `i`,
piece `i` corresponds to bit `7 - (i % 8)` of byte `i / 8`, and
`has_piece`/`set_piece`/`clear_piece` all address exactly that bit
(reading back any in-range piece after a set/clear returns the old value
except at the addressed index). -/
theorem bitfield_msb_first_layout :
    (∀ n, (Bitfield.new n).bytes.length = (n + 7) / 8) ∧
    (∀ bf : Bitfield, ∀ i, i < bf.num_pieces →
      bf.has_piece i = (bf.bytes.getD (i / 8) 0).testBit (7 - i % 8)) ∧
    (∀ bf : Bitfield, ∀ i j, (bf.num_pieces + 7) / 8 ≤ bf.bytes.length →
      i < bf.num_pieces → j < bf.num_pieces →
      (bf.set_piece i).has_piece j = (bf.has_piece j || (j == i)) ∧
      (bf.clear_piece i).has_piece j = (bf.has_piece j && !(j == i))) :=
  ⟨fun n => by simp [Bitfield.new],
   Bitfield.has_piece_eq_testBit,
   fun bf i j hwf hi hj =>
     ⟨Bitfield.has_piece_set bf i j hwf hi hj,
      Bitfield.has_piece_clear bf i j hwf hi hj⟩⟩

/-- Witness for C7 at a 12-piece bitfield. -/
theorem bitfield_msb_first_layout_witness :
    (Bitfield.new 12).bytes.length = (12 + 7) / 8 ∧
    ((Bitfield.new 12).has_piece 3
      = ((Bitfield.new 12).bytes.getD (3 / 8) 0).testBit (7 - 3 % 8)) ∧
    ((Bitfield.new 12).set_piece 3).has_piece 3
      = ((Bitfield.new 12).has_piece 3 || (3 == 3)) ∧
    ((Bitfield.new 12).clear_piece 3).has_piece 5
      = ((Bitfield.new 12).has_piece 5 && !(5 == 3)) :=
  ⟨bitfield_msb_first_layout.1 12,
   bitfield_msb_first_layout.2.1 (Bitfield.new 12) 3 (by decide),
   (bitfield_msb_first_layout.2.2 (Bitfield.new 12) 3 3
      (by decide) (by decide) (by decide)).1,
   (bitfield_msb_first_layout.2.2 (Bitfield.new 12) 3 5
      (by decide) (by decide) (by decide)).2⟩

/-- **C9.** For every bitfield and every index at or beyond its number of
pieces, `has_piece` returns `false` and `set_piece`/`clear_piece` leave the
bitfield unchanged: out-of-range accesses are total no-ops. -/
theorem bitfield_out_of_range_noop (bf : Bitfield) (i : Nat)
    (h : bf.num_pieces ≤ i) :
    bf.has_piece i = false ∧ bf.set_piece i = bf ∧ bf.clear_piece i = bf := by
  refine ⟨?_, ?_, ?_⟩ <;>
    simp [Bitfield.has_piece, Bitfield.set_piece, Bitfield.clear_piece, h]

/-- Witness for C9: index 5 on a 3-piece bitfield. -/
theorem bitfield_out_of_range_noop_witness :
    (Bitfield.new 3).num_pieces ≤ 5 ∧
    ((Bitfield.new 3).has_piece 5 = false ∧
     (Bitfield.new 3).set_piece 5 = Bitfield.new 3 ∧
     (Bitfield.new 3).clear_piece 5 = Bitfield.new 3) :=
  ⟨by decide, bitfield_out_of_range_noop (Bitfield.new 3) 5 (by decide)⟩

/-! ## SHA-1 (the `sha1` crate used by `piece/mod.rs` and `torrent/mod.rs`)

Executable SHA-1 over byte lists, words as `Nat` reduced mod `2 ^ 32`. -/

namespace Sha1

/-- Reduce to a 32-bit word. -/
def w32 (x : Nat) : Nat := x % 4294967296

/-- Rotate a 32-bit word left by `s` (for `x < 2 ^ 32`, `s ≤ 32`). -/
def rotl (s x : Nat) : Nat := w32 (x * 2 ^ s + x / 2 ^ (32 - s))

/-- Big-endian bytes of `x`, `n` bytes wide. -/
def toBytesBE : Nat → Nat → List Nat
  | 0, _ => []
  | n + 1, x => toBytesBE n (x / 256) ++ [x % 256]

/-- Group bytes into big-endian 32-bit words. -/
def toWordsBE : List Nat → List Nat
  | a :: b :: c :: d :: rest =>
      (((a * 256 + b) * 256 + c) * 256 + d) :: toWordsBE rest
  | _ => []

/-- Standard SHA-1 padding: `0x80`, zeros to 56 mod 64, 8-byte bit length. -/
def padMessage (msg : List Nat) : List Nat :=
  let len := msg.length
  let zeros := (119 - len % 64) % 64
  msg ++ [128] ++ List.replicate zeros 0 ++ toBytesBE 8 ((len * 8) % 2 ^ 64)

/-- Split a word list into 16-word blocks (structural recursion on a fuel
bound so the kernel can evaluate it). -/
def chunk16Aux : Nat → List Nat → List (List Nat)
  | 0, _ => []
  | _, [] => []
  | fuel + 1, ws => ws.take 16 :: chunk16Aux fuel (ws.drop 16)

/-- Split a word list into 16-word blocks. -/
def chunk16 (ws : List Nat) : List (List Nat) :=
  chunk16Aux ws.length ws

/-- Extend the 16 block words to the 80-word message schedule, one word per
step. -/
def extendW : List Nat → Nat → List Nat
  | w, 0 => w
  | w, Nat.succ k =>
      let l := w.length
      extendW
        (w ++ [rotl 1 ((w.getD (l - 3) 0) ^^^ (w.getD (l - 8) 0) ^^^
          (w.getD (l - 14) 0) ^^^ (w.getD (l - 16) 0))]) k

/-- Round function. -/
def f (t b c d : Nat) : Nat :=
  if t < 20 then (b &&& c) ||| ((4294967295 ^^^ b) &&& d)
  else if t < 40 then b ^^^ c ^^^ d
  else if t < 60 then (b &&& c) ||| (b &&& d) ||| (c &&& d)
  else b ^^^ c ^^^ d

/-- Round constants. -/
def K (t : Nat) : Nat :=
  if t < 20 then 1518500249
  else if t < 40 then 1859775393
  else if t < 60 then 2400959708
  else 3395469782

/-- One 512-bit block. -/
def processBlock (h : Nat × Nat × Nat × Nat × Nat) (block : List Nat) :
    Nat × Nat × Nat × Nat × Nat :=
  let ws := extendW block 64
  let step := fun (st : Nat × Nat × Nat × Nat × Nat) (t : Nat) =>
    let (a, b, c, d, e) := st
    let temp := w32 (rotl 5 a + f t b c d + e + K t + ws.getD t 0)
    (temp, a, rotl 30 b, c, d)
  let (a, b, c, d, e) := (List.range 80).foldl step h
  (w32 (h.1 + a), w32 (h.2.1 + b), w32 (h.2.2.1 + c),
   w32 (h.2.2.2.1 + d), w32 (h.2.2.2.2 + e))

/-- SHA-1 digest (20 bytes) of a byte list. -/
def sha1 (msg : List Nat) : List Nat :=
  let blocks := chunk16 (toWordsBE (padMessage msg))
  let h := blocks.foldl processBlock
    (1732584193, 4023233417, 2562383102, 271733878, 3285377520)
  toBytesBE 4 h.1 ++ toBytesBE 4 h.2.1 ++ toBytesBE 4 h.2.2.1 ++
    toBytesBE 4 h.2.2.2.1 ++ toBytesBE 4 h.2.2.2.2

theorem toBytesBE_length : ∀ n x, (toBytesBE n x).length = n := by
  intro n
  induction n with
  | zero => intro x; rfl
  | succ k ih => intro x; simp [toBytesBE, ih]

/-- A SHA-1 digest always has 20 bytes. -/
theorem sha1_length (msg : List Nat) : (sha1 msg).length = 20 := by
  simp [sha1, toBytesBE_length]

end Sha1

/-! ## Association-list stand-ins for `HashMap` / `HashSet`

Only `get` / `insert` / `remove` semantics matter to the embedded code;
iteration order of a Rust `HashMap` is unspecified, so an association list
keyed by the same values is a faithful model of those operations. -/

/-- `HashMap::get`. -/
def lookupA {β : Type} (l : List (Nat × β)) (k : Nat) : Option β :=
  (l.find? (fun p => p.1 == k)).map (fun p => p.2)

/-- `HashMap::remove` (the mapping only; the removed value is read through
`lookupA` first where the source uses the return value). -/
def removeA {β : Type} (l : List (Nat × β)) (k : Nat) : List (Nat × β) :=
  l.filter (fun p => p.1 != k)

/-- `HashMap::insert` (replaces any existing mapping of the key). -/
def insertA {β : Type} (l : List (Nat × β)) (k : Nat) (v : β) :
    List (Nat × β) :=
  (k, v) :: removeA l k

/-! ## Piece manager (src/src-tauri/src/piece/mod.rs) -/

/-- Standard block size for piece requests (16KB). -/
def BLOCK_SIZE : Nat := 16384

/-- A block within a piece. -/
structure BlockInfo where
  piece_index : Nat
  offset : Nat
  length : Nat
deriving Repr, DecidableEq

instance : Inhabited BlockInfo := ⟨⟨0, 0, 0⟩⟩

/-- State of a piece being downloaded. -/
structure PieceState where
  /-- Data buffer for this piece. -/
  data : List Nat
  /-- Which block offsets have been downloaded (a `HashSet`, kept
  duplicate-free by insert-if-absent). -/
  downloaded_blocks : List Nat
  /-- Total blocks in this piece. -/
  total_blocks : Nat
deriving Repr, DecidableEq

namespace PieceState

/-- `PieceState::new`. -/
def new (piece_length : Nat) : PieceState :=
  { data := List.replicate piece_length 0
    downloaded_blocks := []
    total_blocks := (piece_length + BLOCK_SIZE - 1) / BLOCK_SIZE }

/-- `PieceState::write_block`: copy `data` into the buffer at `offset` and
record the offset, but only when the block lies inside the buffer. -/
def write_block (st : PieceState) (offset : Nat) (data : List Nat) :
    PieceState :=
  let e := offset + data.length
  if e ≤ st.data.length then
    { st with
      data := st.data.take offset ++ data ++ st.data.drop e
      downloaded_blocks := st.downloaded_blocks.insert offset }
  else st

/-- `PieceState::is_complete`. -/
def is_complete (st : PieceState) : Bool :=
  st.downloaded_blocks.length == st.total_blocks

/-- `PieceState::missing_blocks`. -/
def missing_blocks (st : PieceState) : List Nat :=
  ((List.range st.total_blocks).map (fun i => i * BLOCK_SIZE)).filter
    (fun offset => !st.downloaded_blocks.contains offset)

end PieceState

/-! ## Piece selector (src/src-tauri/src/piece/strategy.rs) -/

inductive SelectionStrategy where
  | rarestFirst
  | sequential
  | random
  | endgame
deriving Repr, DecidableEq

/-- Manages piece selection based on strategy. -/
structure PieceSelector where
  strategy : SelectionStrategy
  /-- piece index → count of peers that have it (a `HashMap`). -/
  piece_availability : List (Nat × Nat)
deriving Repr, DecidableEq

namespace PieceSelector

/-- `PieceSelector::get_availability`. -/
def get_availability (sel : PieceSelector) (piece_idx : Nat) : Nat :=
  (lookupA sel.piece_availability piece_idx).getD 0

/-- Rust `Iterator::min_by_key`: the first element attaining the minimum
key. -/
def minByKeyFirst (f : Nat → Nat) : List Nat → Option Nat
  | [] => none
  | x :: xs => some (xs.foldl (fun best y => if f y < f best then y else best) x)

/-- `PieceSelector::select_rarest`. -/
def select_rarest (sel : PieceSelector) (candidates : List Nat) : Option Nat :=
  minByKeyFirst (fun piece_idx => sel.get_availability piece_idx) candidates

/-- `PieceSelector::select_sequential`: lowest index. -/
def select_sequential (candidates : List Nat) : Option Nat :=
  candidates.min?

/-- `PieceSelector::select_random`: `SliceRandom::choose` with `thread_rng`,
modelled by an explicit oracle index `rng`. -/
def select_random (candidates : List Nat) (rng : Nat) : Option Nat :=
  if candidates.isEmpty then none
  else candidates.get? (rng % candidates.length)

/-- `PieceSelector::select_endgame`: the first remaining candidate. -/
def select_endgame (candidates : List Nat) : Option Nat :=
  candidates.head?

/-- `PieceSelector::select_piece`: candidates are the pieces we need that the
peer has, minus the pieces already being requested; then dispatch on the
strategy. The `rng` oracle is consumed only by the `Random` strategy. -/
def select_piece (sel : PieceSelector) (rng : Nat) (our_bitfield : Bitfield)
    (peer_bitfield : Bitfield) (pending_pieces : List Nat) : Option Nat :=
  let candidates := our_bitfield.pieces_to_request peer_bitfield
  let candidates := candidates.filter (fun piece => !pending_pieces.contains piece)
  if candidates.isEmpty then none
  else
    match sel.strategy with
    | .rarestFirst => sel.select_rarest candidates
    | .sequential => select_sequential candidates
    | .random => select_random candidates rng
    | .endgame => select_endgame candidates

end PieceSelector

/-- Manages all piece-related operations for a torrent. -/
structure PieceManager where
  /-- Our bitfield tracking which pieces we have. -/
  our_bitfield : Bitfield
  /-- Piece selection strategy. -/
  selector : PieceSelector
  /-- SHA1 hashes for each piece (from metainfo). -/
  piece_hashes : List (List Nat)
  /-- Length of each piece in bytes. -/
  piece_length : Nat
  /-- Length of the last piece (may be shorter). -/
  last_piece_length : Nat
  /-- Total number of pieces. -/
  num_pieces : Nat
  /-- Pieces currently being downloaded (a `HashMap`). -/
  in_progress : List (Nat × PieceState)
  /-- Pieces that have been verified and are complete (a `HashSet`). -/
  verified_pieces : List Nat
  /-- peer id → set of piece indices requested from that peer. -/
  peer_requests : List (String × List Nat)
deriving Repr, DecidableEq

namespace PieceManager

/-- `PieceManager::new` (the `assert_eq!` on the hash count is a
precondition carried as a hypothesis by the theorems that need it). -/
def new (num_pieces piece_length last_piece_length : Nat)
    (piece_hashes : List (List Nat)) (strategy : SelectionStrategy) :
    PieceManager :=
  { our_bitfield := Bitfield.new num_pieces
    selector := { strategy := strategy, piece_availability := [] }
    piece_hashes := piece_hashes
    piece_length := piece_length
    last_piece_length := last_piece_length
    num_pieces := num_pieces
    in_progress := []
    verified_pieces := []
    peer_requests := [] }

/-- `PieceManager::piece_len`. -/
def piece_len (pm : PieceManager) (piece_index : Nat) : Nat :=
  if piece_index == pm.num_pieces - 1 then pm.last_piece_length
  else pm.piece_length

/-- `PieceManager::get_blocks_for_piece`. -/
def get_blocks_for_piece (pm : PieceManager) (piece_index : Nat) :
    List BlockInfo :=
  let piece_len := pm.piece_len piece_index
  let num_blocks := (piece_len + BLOCK_SIZE - 1) / BLOCK_SIZE
  (List.range num_blocks).map (fun i =>
    let offset := i * BLOCK_SIZE
    let length := min BLOCK_SIZE (piece_len - offset)
    BlockInfo.mk piece_index offset length)

/-- `PieceManager::write_block`. Rust mutates `&mut self` and returns
`Result<bool, String>`; the model returns the updated manager next to the
result. -/
def write_block (pm : PieceManager) (block : BlockInfo) (data : List Nat) :
    PieceManager × Except String Bool :=
  if block.length != data.length then
    (pm, .error ("Block data length mismatch: expected " ++
      toString block.length ++ ", got " ++ toString data.length))
  else
    match lookupA pm.in_progress block.piece_index with
    | none =>
        (pm, .error ("Piece " ++ toString block.piece_index ++
          " not in progress"))
    | some state =>
        let state := state.write_block block.offset data
        ({ pm with in_progress := insertA pm.in_progress block.piece_index state },
         .ok state.is_complete)

/-- `PieceManager::verify_piece`. -/
def verify_piece (pm : PieceManager) (piece_index : Nat) :
    PieceManager × Except String (List Nat) :=
  match lookupA pm.in_progress piece_index with
  | none =>
      (pm, .error ("Piece " ++ toString piece_index ++ " not in progress"))
  | some state =>
      let removed := removeA pm.in_progress piece_index
      if !state.is_complete then
        ({ pm with in_progress := insertA removed piece_index state },
         .error "Piece not complete")
      else
        let hash := Sha1.sha1 state.data
        let expected := pm.piece_hashes.getD piece_index []
        if hash != expected then
          ({ pm with
              in_progress := insertA removed piece_index
                (PieceState.new state.data.length) },
           .error ("Piece " ++ toString piece_index ++
             " hash verification failed"))
        else
          ({ pm with
              in_progress := removed
              our_bitfield := pm.our_bitfield.set_piece piece_index
              verified_pieces := pm.verified_pieces.insert piece_index
              peer_requests := pm.peer_requests.map
                (fun p => (p.1, p.2.filter (fun x => x != piece_index))) },
           .ok state.data)

/-- The per-piece display state from `PieceManager::get_pieces_info`:
0 = missing, 1 = have, 2 = downloading. -/
def piece_ui_state (pm : PieceManager) (i : Nat) : Nat :=
  if pm.our_bitfield.has_piece i then 1
  else if (lookupA pm.in_progress i).isSome then 2
  else 0

end PieceManager

/-! Helper lemmas for list reads and the association-list model. -/

theorem getD_map_range {α : Type} (f : Nat → α) (d : α) (n j : Nat)
    (h : j < n) : ((List.range n).map f).getD j d = f j := by
  rw [List.getD_eq_getElem?_getD, List.getElem?_map, List.getElem?_range h]
  rfl

theorem lookupA_insertA_self {β : Type} (l : List (Nat × β)) (k : Nat)
    (v : β) : lookupA (insertA l k v) k = some v := by
  simp [lookupA, insertA, List.find?_cons]

theorem lookupA_cons {β : Type} (p : Nat × β) (t : List (Nat × β))
    (k : Nat) :
    lookupA (p :: t) k = if p.1 = k then some p.2 else lookupA t k := by
  simp only [lookupA, List.find?_cons]
  by_cases hp : p.1 = k
  · simp [hp]
  · have h1 : (p.1 == k) = false := by simp [hp]
    simp [hp, h1]

theorem removeA_cons {β : Type} (p : Nat × β) (t : List (Nat × β))
    (k : Nat) :
    removeA (p :: t) k = if p.1 = k then removeA t k else p :: removeA t k := by
  simp only [removeA, List.filter_cons]
  by_cases hp : p.1 = k <;> simp [hp]

theorem lookupA_removeA_ne {β : Type} (l : List (Nat × β)) (k k' : Nat)
    (h : k' ≠ k) : lookupA (removeA l k) k' = lookupA l k' := by
  induction l with
  | nil => rfl
  | cons p t ih =>
      rw [removeA_cons, lookupA_cons]
      by_cases hp : p.1 = k
      · rw [if_pos hp, if_neg (by omega), ih]
      · rw [if_neg hp, lookupA_cons, ih]

theorem lookupA_insertA_ne {β : Type} (l : List (Nat × β)) (k k' : Nat)
    (v : β) (h : k' ≠ k) : lookupA (insertA l k v) k' = lookupA l k' := by
  have h2 : ((k, v).1 == k') = false := by simp [Ne.symm h]
  have hstep : lookupA (insertA l k v) k' = lookupA (removeA l k) k' := by
    simp [lookupA, insertA, List.find?_cons, h2]
  rw [hstep, lookupA_removeA_ne l k k' h]

theorem splice_length (s data : List Nat) (o : Nat)
    (h : o + data.length ≤ s.length) :
    (s.take o ++ data ++ s.drop (o + data.length)).length = s.length := by
  simp only [List.length_append, List.length_take, List.length_drop]
  omega

theorem splice_getD_inside (s data : List Nat) (o k : Nat)
    (h : o + data.length ≤ s.length) (hk : k < data.length) :
    (s.take o ++ data ++ s.drop (o + data.length)).getD (o + k) 0
      = data.getD k 0 := by
  have hto : (s.take o).length = o := by
    simp only [List.length_take]
    omega
  rw [List.append_assoc, List.getD_eq_getElem?_getD, List.getElem?_append_right (by omega),
    hto, Nat.add_sub_cancel_left, List.getElem?_append_left hk,
    ← List.getD_eq_getElem?_getD]

theorem splice_getD_outside (s data : List Nat) (o k : Nat)
    (h : o + data.length ≤ s.length)
    (hk : k < o ∨ o + data.length ≤ k) :
    (s.take o ++ data ++ s.drop (o + data.length)).getD k 0 = s.getD k 0 := by
  have hto : (s.take o).length = o := by
    simp only [List.length_take]
    omega
  have hlen2 : (s.take o ++ data).length = o + data.length := by
    simp only [List.length_append, hto]
  rcases hk with hk | hk
  · rw [List.getD_eq_getElem?_getD, List.getElem?_append_left (by omega),
      List.getElem?_append_left (by omega),
      List.getElem?_take_of_lt hk, ← List.getD_eq_getElem?_getD]
  · rw [List.getD_eq_getElem?_getD,
      List.getElem?_append_right (by rw [hlen2]; exact hk),
      hlen2, List.getElem?_drop,
      show o + data.length + (k - (o + data.length)) = k by omega,
      ← List.getD_eq_getElem?_getD]

/-- **C6.** For every piece index, the block list for that piece partitions
the piece into consecutive blocks: block `j` sits at offset `j * 16384`, its
length is the lesser of `16384` and the bytes remaining in the piece, every
block except possibly the last is exactly `16384` bytes, each block ends
where the next begins, and the final block ends exactly at the piece
length. -/
theorem get_blocks_for_piece_partition (pm : PieceManager)
    (piece_index : Nat) :
    (pm.get_blocks_for_piece piece_index).length
      = (pm.piece_len piece_index + BLOCK_SIZE - 1) / BLOCK_SIZE ∧
    ∀ j, j < (pm.get_blocks_for_piece piece_index).length →
      ((pm.get_blocks_for_piece piece_index).getD j default).piece_index
          = piece_index ∧
      ((pm.get_blocks_for_piece piece_index).getD j default).offset
          = j * BLOCK_SIZE ∧
      ((pm.get_blocks_for_piece piece_index).getD j default).length
          = min BLOCK_SIZE (pm.piece_len piece_index - j * BLOCK_SIZE) ∧
      (j + 1 < (pm.get_blocks_for_piece piece_index).length →
        ((pm.get_blocks_for_piece piece_index).getD j default).length
          = BLOCK_SIZE) ∧
      ((pm.get_blocks_for_piece piece_index).getD j default).offset +
        ((pm.get_blocks_for_piece piece_index).getD j default).length
          = min ((j + 1) * BLOCK_SIZE) (pm.piece_len piece_index) ∧
      (j + 1 = (pm.get_blocks_for_piece piece_index).length →
        ((pm.get_blocks_for_piece piece_index).getD j default).offset +
          ((pm.get_blocks_for_piece piece_index).getD j default).length
            = pm.piece_len piece_index) := by
  have hlen : (pm.get_blocks_for_piece piece_index).length
      = (pm.piece_len piece_index + BLOCK_SIZE - 1) / BLOCK_SIZE := by
    simp [PieceManager.get_blocks_for_piece]
  refine ⟨hlen, ?_⟩
  intro j hj
  rw [hlen] at hj
  have hg : (pm.get_blocks_for_piece piece_index).getD j default
      = BlockInfo.mk piece_index (j * BLOCK_SIZE)
          (min BLOCK_SIZE (pm.piece_len piece_index - j * BLOCK_SIZE)) := by
    simp only [PieceManager.get_blocks_for_piece]
    exact getD_map_range _ _ _ _ hj
  rw [hg, hlen]
  refine ⟨rfl, rfl, rfl, ?_, ?_, ?_⟩ <;>
    (simp only [BLOCK_SIZE] at hj ⊢; intros; omega)

/-- Witness for C6: a two-block piece of 20000 bytes
(`piece_length = 16384`, last piece 3616 bytes would be one block; here we
instantiate at piece 0 of a 20000-byte piece). -/
theorem get_blocks_for_piece_partition_witness :
    ((PieceManager.new 2 20000 3616 [[], []] .sequential).get_blocks_for_piece
        0).length = (20000 + BLOCK_SIZE - 1) / BLOCK_SIZE ∧
    (((PieceManager.new 2 20000 3616 [[], []]
        .sequential).get_blocks_for_piece 0).getD 1 default).offset
      = 1 * BLOCK_SIZE ∧
    (((PieceManager.new 2 20000 3616 [[], []]
        .sequential).get_blocks_for_piece 0).getD 1 default).length
      = min BLOCK_SIZE
          ((PieceManager.new 2 20000 3616 [[], []] .sequential).piece_len 0
            - 1 * BLOCK_SIZE) := by
  have h := get_blocks_for_piece_partition
    (PieceManager.new 2 20000 3616 [[], []] .sequential) 0
  have h1 := (h.2 1 (by decide))
  exact ⟨h.1, h1.2.1, h1.2.2.1⟩

/-- `Result::is_err`. -/
def isErr {ε α : Type} : Except ε α → Bool
  | .error _ => true
  | .ok _ => false

/-- **C10.** `write_block` errors (with the manager untouched) when the
buffer length differs from the block's declared length or the piece is not
in progress; otherwise the bytes are copied into the piece buffer at the
block offset and the offset is recorded as downloaded, but only when the
block lies within the buffer — a block past the end leaves the piece state
unchanged. -/
theorem write_block_state (pm : PieceManager) (block : BlockInfo)
    (data : List Nat) :
    (block.length ≠ data.length →
      ∃ e, pm.write_block block data = (pm, .error e)) ∧
    (lookupA pm.in_progress block.piece_index = none →
      ∃ e, pm.write_block block data = (pm, .error e)) ∧
    (∀ st, block.length = data.length →
      lookupA pm.in_progress block.piece_index = some st →
      (pm.write_block block data).1.our_bitfield = pm.our_bitfield ∧
      (pm.write_block block data).1.verified_pieces = pm.verified_pieces ∧
      (∀ k, k ≠ block.piece_index →
        lookupA (pm.write_block block data).1.in_progress k
          = lookupA pm.in_progress k) ∧
      lookupA (pm.write_block block data).1.in_progress block.piece_index
        = some (st.write_block block.offset data) ∧
      (block.offset + data.length ≤ st.data.length →
        (st.write_block block.offset data).data.length = st.data.length ∧
        (∀ k, k < data.length →
          (st.write_block block.offset data).data.getD (block.offset + k) 0
            = data.getD k 0) ∧
        (∀ k, k < block.offset ∨ block.offset + data.length ≤ k →
          (st.write_block block.offset data).data.getD k 0
            = st.data.getD k 0) ∧
        block.offset ∈ (st.write_block block.offset data).downloaded_blocks) ∧
      (st.data.length < block.offset + data.length →
        st.write_block block.offset data = st)) := by
  refine ⟨?_, ?_, ?_⟩
  · intro h
    refine ⟨"Block data length mismatch: expected " ++ toString block.length ++
      ", got " ++ toString data.length, ?_⟩
    unfold PieceManager.write_block
    rw [if_pos (by simpa using h)]
  · intro hnone
    by_cases hlen : block.length = data.length
    · refine ⟨"Piece " ++ toString block.piece_index ++ " not in progress", ?_⟩
      unfold PieceManager.write_block
      rw [if_neg (by simp [hlen]), hnone]
    · refine ⟨"Block data length mismatch: expected " ++
        toString block.length ++ ", got " ++ toString data.length, ?_⟩
      unfold PieceManager.write_block
      rw [if_pos (by simpa using hlen)]
  · intro st hlen hsome
    have hres : pm.write_block block data =
        ({ pm with
            in_progress :=
              insertA pm.in_progress block.piece_index
                (st.write_block block.offset data) },
         Except.ok (st.write_block block.offset data).is_complete) := by
      unfold PieceManager.write_block
      rw [if_neg (by simpa using hlen), hsome]
    rw [hres]
    refine ⟨rfl, rfl, ?_, lookupA_insertA_self _ _ _, ?_, ?_⟩
    · intro k hk
      exact lookupA_insertA_ne _ _ _ _ hk
    · intro hin
      unfold PieceState.write_block
      rw [if_pos hin]
      refine ⟨splice_length _ _ _ hin, ?_, ?_, List.mem_insert_self _ _⟩
      · intro k hk
        exact splice_getD_inside _ _ _ _ hin hk
      · intro k hk
        exact splice_getD_outside _ _ _ _ hin hk
    · intro hout
      unfold PieceState.write_block
      rw [if_neg (by omega)]

/-- A one-piece manager with a 4-byte piece in progress, for the C10
witness. -/
def wbPM : PieceManager :=
  { PieceManager.new 1 4 4 [List.replicate 20 0] SelectionStrategy.sequential with
    in_progress := [(0, PieceState.new 4)] }

/-- Witness for C10: writing a 2-byte block at offset 0 into the 4-byte
buffer. -/
theorem write_block_state_witness :
    (wbPM.write_block ⟨0, 0, 2⟩ [5, 6]).1.our_bitfield = wbPM.our_bitfield ∧
    lookupA (wbPM.write_block ⟨0, 0, 2⟩ [5, 6]).1.in_progress 0
      = some ((PieceState.new 4).write_block 0 [5, 6]) ∧
    ((PieceState.new 4).write_block 0 [5, 6]).data.getD (0 + 1) 0
      = [5, 6].getD 1 0 ∧
    (0 : Nat) ∈ ((PieceState.new 4).write_block 0 [5, 6]).downloaded_blocks := by
  have h := (write_block_state wbPM ⟨0, 0, 2⟩ [5, 6]).2.2 (PieceState.new 4)
    rfl (by decide)
  exact ⟨h.1, h.2.2.2.1, (h.2.2.2.2.1 (by decide)).2.1 1 (by decide),
    (h.2.2.2.2.1 (by decide)).2.2.2⟩

/-- A one-piece manager whose only piece is fully downloaded but whose
buffer does not hash to the stored digest (the stored digest is twenty zero
bytes). -/
def c3PM : PieceManager :=
  { PieceManager.new 1 1 1 [List.replicate 20 0] SelectionStrategy.sequential with
    in_progress := [(0, PieceState.mk [7] [0] 1)] }

/-- **C3 (counterexample).** After a failed verification the piece is *not*
reset to the Missing display state: `verify_piece` re-inserts a fresh buffer
into `in_progress`, so the piece's UI state is 2 (downloading), not 0
(missing). -/
theorem verify_piece_mismatch_not_missing :
    isErr (c3PM.verify_piece 0).2 = true ∧
    (c3PM.verify_piece 0).1.piece_ui_state 0 = 2 := by
  decide

/-- **C3 (amended).** On a digest mismatch of a complete piece,
`verify_piece` returns an error, leaves our bitfield and the verified set
unchanged, and replaces the piece's buffer in `in_progress` by a fresh
all-zero state with no downloaded blocks (so every block will be re-fetched);
the piece stays in the in-progress map rather than reverting to Missing. -/
theorem verify_piece_mismatch_resets_buffer (pm : PieceManager)
    (piece_index : Nat) (st : PieceState)
    (hfound : lookupA pm.in_progress piece_index = some st)
    (hcomplete : st.is_complete = true)
    (hmismatch : Sha1.sha1 st.data ≠ pm.piece_hashes.getD piece_index []) :
    isErr (pm.verify_piece piece_index).2 = true ∧
    (pm.verify_piece piece_index).1.our_bitfield = pm.our_bitfield ∧
    (pm.verify_piece piece_index).1.verified_pieces = pm.verified_pieces ∧
    lookupA (pm.verify_piece piece_index).1.in_progress piece_index
      = some (PieceState.new st.data.length) ∧
    (PieceState.new st.data.length).data = List.replicate st.data.length 0 ∧
    (PieceState.new st.data.length).downloaded_blocks = [] := by
  have hres : pm.verify_piece piece_index =
      ({ pm with
          in_progress :=
            insertA (removeA pm.in_progress piece_index) piece_index
              (PieceState.new st.data.length) },
       Except.error ("Piece " ++ toString piece_index ++
         " hash verification failed")) := by
    unfold PieceManager.verify_piece
    rw [hfound]
    simp only [hcomplete, Bool.not_true]
    rw [if_neg (by simp)]
    rw [if_pos (by simpa using hmismatch)]
  rw [hres]
  exact ⟨rfl, rfl, rfl, lookupA_insertA_self _ _ _, rfl, rfl⟩

/-- Witness for the amended C3 at the concrete mismatching manager. -/
theorem verify_piece_mismatch_resets_buffer_witness :
    isErr (c3PM.verify_piece 0).2 = true ∧
    (c3PM.verify_piece 0).1.our_bitfield = c3PM.our_bitfield ∧
    (c3PM.verify_piece 0).1.verified_pieces = c3PM.verified_pieces ∧
    lookupA (c3PM.verify_piece 0).1.in_progress 0
      = some (PieceState.new 1) := by
  have h := verify_piece_mismatch_resets_buffer c3PM 0
    (PieceState.mk [7] [0] 1) (by decide) (by decide) (by decide)
  exact ⟨h.1, h.2.1, h.2.2.1, h.2.2.2.1⟩

/-- **C5.** With the Endgame strategy, `select_piece` still removes the
pending (InProgress) pieces from the candidate set before dispatching, so a
piece already being fetched is never selected again: here the peer offers
exactly piece 0, piece 0 is pending, and selection returns `none` instead of
re-requesting it. -/
theorem endgame_select_excludes_pending :
    (Bitfield.new 2).pieces_to_request (Bitfield.mk [128] 2) = [0] ∧
    PieceSelector.select_piece (PieceSelector.mk .endgame []) 0
      (Bitfield.new 2) (Bitfield.mk [128] 2) [0] = none := by
  decide

/-! ## Errors (src/src-tauri/src/error.rs), restricted to the variants the
embedded functions construct. -/

inductive RError where
  | bencodeError (msg : String)
  | metainfoError (msg : String)
  | networkError (msg : String)
  | invalidData (msg : String)
deriving Repr, DecidableEq

/-! ## Wire protocol messages (src/src-tauri/src/peer/message.rs) -/

inductive MessageId where
  | choke
  | unchoke
  | interested
  | notInterested
  | have
  | bitfield
  | request
  | piece
  | cancel
deriving Repr, DecidableEq

namespace MessageId

/-- `MessageId::from_u8`: ids outside `0..=8` are an `InvalidData` error. -/
def from_u8 (value : Nat) : Except RError MessageId :=
  match value with
  | 0 => .ok .choke
  | 1 => .ok .unchoke
  | 2 => .ok .interested
  | 3 => .ok .notInterested
  | 4 => .ok .have
  | 5 => .ok .bitfield
  | 6 => .ok .request
  | 7 => .ok .piece
  | 8 => .ok .cancel
  | _ => .error (.invalidData ("unknown message ID: " ++ toString value))

end MessageId

/-- `u32::from_be_bytes` on four byte values. -/
def u32be (a b c d : Nat) : Nat := ((a * 256 + b) * 256 + c) * 256 + d

inductive Message where
  | keepAlive
  | choke
  | unchoke
  | interested
  | notInterested
  | have (piece_index : Nat)
  | bitfield (bitfield : List Nat)
  | request (index begin_ length : Nat)
  | piece (index begin_ : Nat) (data : List Nat)
  | cancel (index begin_ length : Nat)
deriving Repr, DecidableEq

namespace Message

/-- `Message::from_bytes` (without the length prefix): empty input is a
keep-alive, the first byte is the id, the rest the payload. -/
def from_bytes (data : List Nat) : Except RError Message :=
  if data.isEmpty then .ok .keepAlive
  else
    match MessageId.from_u8 (data.headD 0) with
    | .error e => .error e
    | .ok id =>
      let payload := data.tail
      match id with
      | .choke =>
          if !payload.isEmpty then
            .error (.invalidData "choke must have no payload")
          else .ok .choke
      | .unchoke =>
          if !payload.isEmpty then
            .error (.invalidData "unchoke must have no payload")
          else .ok .unchoke
      | .interested =>
          if !payload.isEmpty then
            .error (.invalidData "interested must have no payload")
          else .ok .interested
      | .notInterested =>
          if !payload.isEmpty then
            .error (.invalidData "not interested must have no payload")
          else .ok .notInterested
      | .have =>
          if payload.length ≠ 4 then
            .error (.invalidData "have must be 4 bytes")
          else
            .ok (.have (u32be (payload.getD 0 0) (payload.getD 1 0)
              (payload.getD 2 0) (payload.getD 3 0)))
      | .bitfield => .ok (.bitfield payload)
      | .request =>
          if payload.length ≠ 12 then
            .error (.invalidData "request must be 12 bytes")
          else
            .ok (.request
              (u32be (payload.getD 0 0) (payload.getD 1 0) (payload.getD 2 0)
                (payload.getD 3 0))
              (u32be (payload.getD 4 0) (payload.getD 5 0) (payload.getD 6 0)
                (payload.getD 7 0))
              (u32be (payload.getD 8 0) (payload.getD 9 0) (payload.getD 10 0)
                (payload.getD 11 0)))
      | .piece =>
          if payload.length < 8 then
            .error (.invalidData "piece must be at least 8 bytes")
          else
            .ok (.piece
              (u32be (payload.getD 0 0) (payload.getD 1 0) (payload.getD 2 0)
                (payload.getD 3 0))
              (u32be (payload.getD 4 0) (payload.getD 5 0) (payload.getD 6 0)
                (payload.getD 7 0))
              (payload.drop 8))
      | .cancel =>
          if payload.length ≠ 12 then
            .error (.invalidData "cancel must be 12 bytes")
          else
            .ok (.cancel
              (u32be (payload.getD 0 0) (payload.getD 1 0) (payload.getD 2 0)
                (payload.getD 3 0))
              (u32be (payload.getD 4 0) (payload.getD 5 0) (payload.getD 6 0)
                (payload.getD 7 0))
              (u32be (payload.getD 8 0) (payload.getD 9 0) (payload.getD 10 0)
                (payload.getD 11 0)))

end Message

/-- **C2.** A framed message whose id byte is outside `0..=8` is *not*
skipped: `MessageId::from_u8` returns an `InvalidData` error for every such
id, and `Message::from_bytes` (hence `recv_message`, whose caller tears the
session down on any receive error) propagates it — evaluated here at the
id-9 message. -/
theorem unknown_message_id_is_error :
    Message.from_bytes [9]
      = .error (.invalidData ("unknown message ID: " ++ toString 9)) ∧
    (∀ v, 9 ≤ v → isErr (MessageId.from_u8 v) = true) := by
  refine ⟨by rfl, ?_⟩
  intro v hv
  unfold MessageId.from_u8
  split
  · omega
  · omega
  · omega
  · omega
  · omega
  · omega
  · omega
  · omega
  · omega
  · rfl

/-- Witness for C2 at id 200. -/
theorem unknown_message_id_is_error_witness :
    (9 : Nat) ≤ 200 ∧ isErr (MessageId.from_u8 200) = true :=
  ⟨by decide, unknown_message_id_is_error.2 200 (by decide)⟩

/-! ## HTTP tracker compact peer lists (src/src-tauri/src/tracker/http.rs) -/

/-- A tracker peer: optional peer id plus an IPv4 socket address, modelled
as the four address octets and the port. -/
structure Peer where
  peer_id : Option (List Nat)
  ip : Nat × Nat × Nat × Nat
  port : Nat
deriving Repr, DecidableEq

instance : Inhabited Peer := ⟨⟨none, (0, 0, 0, 0), 0⟩⟩

/-- Rust `chunks_exact(6)` (remainder dropped), fuelled for kernel
evaluation. -/
def chunks6Aux : Nat → List Nat → List (List Nat)
  | 0, _ => []
  | fuel + 1, l => if 6 ≤ l.length then l.take 6 :: chunks6Aux fuel (l.drop 6) else []

/-- `HttpTracker::parse_compact_peers`: 6 bytes per peer, 4-octet IPv4 then
big-endian 2-byte port; a length that is not a multiple of 6 is an error. -/
def parse_compact_peers (bytes : List Nat) : Except RError (List Peer) :=
  if bytes.length % 6 ≠ 0 then
    .error (.metainfoError "compact peers length must be multiple of 6")
  else
    .ok ((chunks6Aux bytes.length bytes).map (fun chunk =>
      { peer_id := none
        ip := (chunk.getD 0 0, chunk.getD 1 0, chunk.getD 2 0, chunk.getD 3 0)
        port := chunk.getD 4 0 * 256 + chunk.getD 5 0 }))

theorem getD_take_drop (l : List Nat) (t m i : Nat) (hit : i < t) :
    ((l.drop m).take t).getD i 0 = l.getD (m + i) 0 := by
  rw [List.getD_eq_getElem?_getD, List.getElem?_take_of_lt hit,
    List.getElem?_drop, ← List.getD_eq_getElem?_getD]

theorem chunks6Aux_spec (fuel : Nat) :
    ∀ l : List Nat, l.length ≤ fuel → l.length % 6 = 0 →
      (chunks6Aux fuel l).length = l.length / 6 ∧
      ∀ k, k < l.length / 6 →
        (chunks6Aux fuel l)[k]? = some ((l.drop (6 * k)).take 6) := by
  induction fuel with
  | zero =>
      intro l hfuel hmod
      have : l = [] := List.eq_nil_of_length_eq_zero (by omega)
      subst this
      exact ⟨rfl, by intro k hk; omega⟩
  | succ n ih =>
      intro l hfuel hmod
      unfold chunks6Aux
      by_cases h6 : 6 ≤ l.length
      · rw [if_pos h6]
        have hrec := ih (l.drop 6) (by simp [List.length_drop]; omega)
          (by simp [List.length_drop]; omega)
        have hdlen : (l.drop 6).length = l.length - 6 := by
          simp [List.length_drop]
        constructor
        · simp only [List.length_cons, hrec.1, hdlen]
          omega
        · intro k hk
          cases k with
          | zero =>
              simp only [List.getElem?_cons_zero, Nat.mul_zero, List.drop_zero]
          | succ k =>
              have harg : 6 * (k + 1) = 6 + 6 * k := by omega
              have h2 := hrec.2 k (by rw [hdlen]; omega)
              rw [List.drop_drop] at h2
              rw [List.getElem?_cons_succ, harg]
              exact h2
      · rw [if_neg h6]
        have : l.length = 0 := by omega
        constructor
        · simp [this]
        · intro k hk
          omega

/-- **C8.** Compact tracker peer parsing: when the byte string length is a
multiple of 6 it yields one peer per 6-byte chunk — the IPv4 address is the
first four bytes and the port the big-endian last two — and any other
length is an error. -/
theorem parse_compact_peers_spec (bytes : List Nat) :
    (bytes.length % 6 ≠ 0 → isErr (parse_compact_peers bytes) = true) ∧
    (bytes.length % 6 = 0 → ∃ peers,
      parse_compact_peers bytes = .ok peers ∧
      peers.length = bytes.length / 6 ∧
      ∀ k, k < bytes.length / 6 →
        peers.getD k default =
          { peer_id := none
            ip := (bytes.getD (6 * k) 0, bytes.getD (6 * k + 1) 0,
              bytes.getD (6 * k + 2) 0, bytes.getD (6 * k + 3) 0)
            port := bytes.getD (6 * k + 4) 0 * 256 +
              bytes.getD (6 * k + 5) 0 }) := by
  constructor
  · intro h
    unfold parse_compact_peers
    rw [if_pos h]
    rfl
  · intro h
    have hch := chunks6Aux_spec bytes.length bytes (le_refl _) h
    have hok : parse_compact_peers bytes =
        .ok ((chunks6Aux bytes.length bytes).map (fun chunk =>
          { peer_id := none
            ip := (chunk.getD 0 0, chunk.getD 1 0, chunk.getD 2 0,
              chunk.getD 3 0)
            port := chunk.getD 4 0 * 256 + chunk.getD 5 0 })) := by
      unfold parse_compact_peers
      rw [if_neg (by omega)]
    refine ⟨_, hok, ?_, ?_⟩
    · rw [List.length_map]
      exact hch.1
    · intro k hk
      rw [List.getD_eq_getElem?_getD, List.getElem?_map, hch.2 k hk]
      simp only [Option.map_some', Option.getD_some]
      congr 1
      · rw [getD_take_drop _ _ _ _ (by omega), getD_take_drop _ _ _ _ (by omega),
          getD_take_drop _ _ _ _ (by omega), getD_take_drop _ _ _ _ (by omega)]
        norm_num
      · rw [getD_take_drop _ _ _ _ (by omega), getD_take_drop _ _ _ _ (by omega)]

/-- Witness for C8: the spec's two-peer example
`192.168.1.1:6881, 10.0.0.1:6882`, plus a 7-byte string that errors. -/
theorem parse_compact_peers_spec_witness :
    parse_compact_peers
        [192, 168, 1, 1, 26, 225, 10, 0, 0, 1, 26, 226]
      = .ok [⟨none, (192, 168, 1, 1), 6881⟩, ⟨none, (10, 0, 0, 1), 6882⟩] ∧
    isErr (parse_compact_peers [192, 168, 1, 1, 26, 0, 0]) = true := by
  constructor
  · obtain ⟨peers, hok, hlen, hget⟩ :=
      (parse_compact_peers_spec
        [192, 168, 1, 1, 26, 225, 10, 0, 0, 1, 26, 226]).2 (by decide)
    rw [hok]
    have h0 := hget 0 (by decide)
    have h1 := hget 1 (by decide)
    have : peers = [peers.getD 0 default, peers.getD 1 default] := by
      revert hlen
      cases peers with
      | nil => intro hlen; simp at hlen
      | cons a t =>
          cases t with
          | nil => intro hlen; simp at hlen
          | cons b t2 =>
              cases t2 with
              | nil => intro hlen; rfl
              | cons c t3 => intro hlen; simp at hlen
    rw [this, h0, h1]
    rfl
  · exact (parse_compact_peers_spec [192, 168, 1, 1, 26, 0, 0]).1 (by decide)

/-! ## Bencode (src/src-tauri/src/bencode.rs)

`BencodeValue::Dictionary` is a Rust `HashMap<Vec<u8>, BencodeValue>`; it is
modelled as an association list in insertion order (iteration order of the
`HashMap` is unspecified, and only `get`/`insert` are relied on). Strings
stay byte lists; `as_str` succeeds exactly on valid UTF-8. -/

/-- ASCII bytes of a string literal (all inputs used here are ASCII). -/
def strBytes (s : String) : List Nat := s.data.map Char.toNat

inductive BencodeValue where
  | integer (n : Int)
  | byteString (bytes : List Nat)
  | list (items : List BencodeValue)
  | dictionary (entries : List (List Nat × BencodeValue))
deriving Repr

/-- UTF-8 validity, as checked by `std::str::from_utf8`. -/
def validUtf8 : List Nat → Bool
  | [] => true
  | b :: rest =>
      if b ≤ 127 then validUtf8 rest
      else if 194 ≤ b ∧ b ≤ 223 then
        match rest with
        | c :: r => (128 ≤ c && c ≤ 191) && validUtf8 r
        | [] => false
      else if b = 224 then
        match rest with
        | c1 :: c2 :: r =>
            (160 ≤ c1 && c1 ≤ 191) && (128 ≤ c2 && c2 ≤ 191) && validUtf8 r
        | _ => false
      else if (225 ≤ b ∧ b ≤ 236) ∨ b = 238 ∨ b = 239 then
        match rest with
        | c1 :: c2 :: r =>
            (128 ≤ c1 && c1 ≤ 191) && (128 ≤ c2 && c2 ≤ 191) && validUtf8 r
        | _ => false
      else if b = 237 then
        match rest with
        | c1 :: c2 :: r =>
            (128 ≤ c1 && c1 ≤ 159) && (128 ≤ c2 && c2 ≤ 191) && validUtf8 r
        | _ => false
      else if b = 240 then
        match rest with
        | c1 :: c2 :: c3 :: r =>
            (144 ≤ c1 && c1 ≤ 191) && (128 ≤ c2 && c2 ≤ 191) &&
              (128 ≤ c3 && c3 ≤ 191) && validUtf8 r
        | _ => false
      else if 241 ≤ b ∧ b ≤ 243 then
        match rest with
        | c1 :: c2 :: c3 :: r =>
            (128 ≤ c1 && c1 ≤ 191) && (128 ≤ c2 && c2 ≤ 191) &&
              (128 ≤ c3 && c3 ≤ 191) && validUtf8 r
        | _ => false
      else if b = 244 then
        match rest with
        | c1 :: c2 :: c3 :: r =>
            (128 ≤ c1 && c1 ≤ 143) && (128 ≤ c2 && c2 ≤ 191) &&
              (128 ≤ c3 && c3 ≤ 191) && validUtf8 r
        | _ => false
      else false

namespace BencodeValue

/-- `BencodeValue::as_integer`. -/
def as_integer : BencodeValue → Option Int
  | .integer n => some n
  | _ => none

/-- `BencodeValue::as_bytes`. -/
def as_bytes : BencodeValue → Option (List Nat)
  | .byteString bytes => some bytes
  | _ => none

/-- `BencodeValue::as_str`: the bytes when they are valid UTF-8 (the model
keeps strings as byte lists). -/
def as_str (v : BencodeValue) : Option (List Nat) :=
  v.as_bytes.bind (fun bytes => if validUtf8 bytes then some bytes else none)

/-- `BencodeValue::as_list`. -/
def as_list : BencodeValue → Option (List BencodeValue)
  | .list items => some items
  | _ => none

/-- `BencodeValue::as_dict`. -/
def as_dict : BencodeValue → Option (List (List Nat × BencodeValue))
  | .dictionary entries => some entries
  | _ => none

end BencodeValue

/-- `HashMap::get` on a dictionary. -/
def dictGet (entries : List (List Nat × BencodeValue)) (key : List Nat) :
    Option BencodeValue :=
  (entries.find? (fun p => p.1 == key)).map (fun p => p.2)

/-- `HashMap::insert` on a dictionary (replaces an existing key). -/
def dictInsert (entries : List (List Nat × BencodeValue)) (key : List Nat)
    (v : BencodeValue) : List (List Nat × BencodeValue) :=
  if (entries.find? (fun p => p.1 == key)).isSome then
    entries.map (fun p => if p.1 == key then (key, v) else p)
  else entries ++ [(key, v)]

/-- All-decimal-digit check and value, `none` when empty or non-digit. -/
def parseDigits (l : List Nat) : Option Nat :=
  if l.isEmpty then none
  else if l.all (fun b => 48 ≤ b && b ≤ 57) then
    some (l.foldl (fun acc b => acc * 10 + (b - 48)) 0)
  else none

/-- Rust `str::parse::<i64>`: optional sign, digits, 64-bit signed range. -/
def parseI64 (l : List Nat) : Option Int :=
  match l with
  | 45 :: rest =>
      (parseDigits rest).bind (fun n =>
        if (n : Int) ≤ 2 ^ 63 then some (-(n : Int)) else none)
  | 43 :: rest =>
      (parseDigits rest).bind (fun n =>
        if (n : Int) < 2 ^ 63 then some (n : Int) else none)
  | _ =>
      (parseDigits l).bind (fun n =>
        if (n : Int) < 2 ^ 63 then some (n : Int) else none)

/-- Rust `str::parse::<usize>` (64-bit). -/
def parseUsize (l : List Nat) : Option Nat :=
  match l with
  | 43 :: rest => (parseDigits rest).bind (fun n =>
      if n < 2 ^ 64 then some n else none)
  | _ => (parseDigits l).bind (fun n => if n < 2 ^ 64 then some n else none)

/-- The cursor scan loops of the parser: position of the first `stop` byte at
or after `pos`, or `data.length` when there is none. -/
def scanUntilAux (data : List Nat) (stop : Nat) : Nat → Nat → Nat
  | 0, pos => pos
  | fuel + 1, pos =>
      if pos < data.length then
        if data.getD pos 0 = stop then pos
        else scanUntilAux data stop fuel (pos + 1)
      else pos

def scanUntil (data : List Nat) (stop pos : Nat) : Nat :=
  scanUntilAux data stop data.length pos

/-- `data[a..b]`. -/
def slice (data : List Nat) (a b : Nat) : List Nat :=
  (data.drop a).take (b - a)

/-- `Parser::expect`. -/
def expectP (data : List Nat) (pos expected : Nat) : Except RError Nat :=
  if pos ≥ data.length then
    .error (.bencodeError "expected byte but got end of data")
  else if data.getD pos 0 ≠ expected then
    .error (.bencodeError "unexpected byte")
  else .ok (pos + 1)

/-- `Parser::parse_integer` (`i<ascii-int>e`). The UTF-8 check of the digit
region is subsumed by the digit test — any byte slice accepted by
`parse::<i64>` is ASCII. -/
def parse_integer (data : List Nat) (pos : Nat) :
    Except RError (BencodeValue × Nat) :=
  (expectP data pos 105).bind (fun start =>
    let epos := scanUntil data 101 start
    if epos ≥ data.length then .error (.bencodeError "unterminated integer")
    else
      match parseI64 (slice data start epos) with
      | none => .error (.bencodeError "invalid integer")
      | some n =>
          (expectP data epos 101).map (fun pos2 => (BencodeValue.integer n, pos2)))

/-- `Parser::parse_byte_string` (`<len>:<bytes>`). -/
def parse_byte_string (data : List Nat) (pos : Nat) :
    Except RError (BencodeValue × Nat) :=
  let cpos := scanUntil data 58 pos
  if cpos ≥ data.length then
    .error (.bencodeError "missing colon in byte string")
  else
    match parseUsize (slice data pos cpos) with
    | none => .error (.bencodeError "invalid length")
    | some len =>
        (expectP data cpos 58).bind (fun pos2 =>
          if pos2 + len > data.length then
            .error (.bencodeError "string length exceeds data")
          else .ok (BencodeValue.byteString (slice data pos2 (pos2 + len)),
            pos2 + len))

mutual

/-- `Parser::parse_value`, fuelled: Rust recursion always consumes input, so
any fuel of at least twice the input length is never exhausted. -/
def parse_value (data : List Nat) : Nat → Nat →
    Except RError (BencodeValue × Nat)
  | 0, _ => .error (.bencodeError "recursion limit")
  | fuel + 1, pos =>
      if pos ≥ data.length then .error (.bencodeError "unexpected end of data")
      else
        let b := data.getD pos 0
        if b = 105 then parse_integer data pos
        else if b = 108 then
          (expectP data pos 108).bind (fun pos1 =>
            parse_list_items data fuel pos1 [])
        else if b = 100 then
          (expectP data pos 100).bind (fun pos1 =>
            parse_dict_items data fuel pos1 [])
        else if 48 ≤ b ∧ b ≤ 57 then parse_byte_string data pos
        else .error (.bencodeError "unexpected character")
termination_by structural fuel => fuel

/-- The `while` loop of `Parser::parse_list`. -/
def parse_list_items (data : List Nat) : Nat → Nat → List BencodeValue →
    Except RError (BencodeValue × Nat)
  | 0, _, _ => .error (.bencodeError "recursion limit")
  | fuel + 1, pos, acc =>
      if pos < data.length ∧ data.getD pos 0 ≠ 101 then
        (parse_value data fuel pos).bind (fun r =>
          parse_list_items data fuel r.2 (acc ++ [r.1]))
      else
        (expectP data pos 101).map (fun pos2 => (BencodeValue.list acc, pos2))
termination_by structural fuel => fuel

/-- The `while` loop of `Parser::parse_dictionary`. -/
def parse_dict_items (data : List Nat) : Nat → Nat →
    List (List Nat × BencodeValue) → Except RError (BencodeValue × Nat)
  | 0, _, _ => .error (.bencodeError "recursion limit")
  | fuel + 1, pos, acc =>
      if pos < data.length ∧ data.getD pos 0 ≠ 101 then
        (parse_value data fuel pos).bind (fun rk =>
          match rk.1 with
          | .byteString key =>
              (parse_value data fuel rk.2).bind (fun rv =>
                parse_dict_items data fuel rv.2 (dictInsert acc key rv.1))
          | _ => .error (.bencodeError "dictionary key must be a string"))
      else
        (expectP data pos 101).map (fun pos2 =>
          (BencodeValue.dictionary acc, pos2))
termination_by structural fuel => fuel

end

/-- `BencodeValue::parse`: parse one value from the start (trailing bytes are
ignored, as in the source). -/
def BencodeValue.parse (data : List Nat) : Except RError BencodeValue :=
  (parse_value data (2 * data.length + 4) 0).map (fun r => r.1)

/-! ## `format!` Debug rendering (used by `Metainfo::calculate_info_hash`)

`calculate_info_hash` hashes `format!("{:?}", info_value)` — the derived
`Debug` rendering of the parsed value, not the raw source bytes. The derived
`Debug` for the enum prints `Integer(n)`, `ByteString([b, ...])`,
`List([...])` and `Dictionary(\x7b[key bytes]: value, ...\x7d)`; a Rust
`HashMap` iterates in an unspecified order, modelled here as the
association-list order (every order yields a rendering beginning with
`Dictionary(`, never a raw bencode byte range). -/

/-- Decimal digits of `n`, fuelled so the kernel can evaluate it. -/
def natDecAux : Nat → Nat → List Nat
  | 0, _ => []
  | fuel + 1, n => if n < 10 then [48 + n] else natDecAux fuel (n / 10) ++ [48 + n % 10]

def natDecStr (n : Nat) : List Nat := natDecAux (n + 1) n

def intDecStr (i : Int) : List Nat :=
  if i < 0 then 45 :: natDecStr (-i).toNat else natDecStr i.toNat

/-- The derived Debug rendering as a byte list, fuelled on nesting depth
(a parsed value's depth is below the input length, so the fuel used by
`calculate_info_hash` is never exhausted). -/
def debugBytesF : Nat → BencodeValue → List Nat
  | 0, _ => []
  | fuel + 1, v =>
      match v with
      | .integer n => strBytes "Integer(" ++ intDecStr n ++ strBytes ")"
      | .byteString bs =>
          strBytes "ByteString([" ++
            List.intercalate (strBytes ", ") (bs.map natDecStr) ++ strBytes "])"
      | .list items =>
          strBytes "List([" ++
            List.intercalate (strBytes ", ") (items.map (debugBytesF fuel)) ++
            strBytes "])"
      | .dictionary entries =>
          strBytes "Dictionary(\x7b" ++
            List.intercalate (strBytes ", ") (entries.map (fun p =>
              strBytes "[" ++
                List.intercalate (strBytes ", ") (p.1.map natDecStr) ++
                strBytes "]: " ++ debugBytesF fuel p.2)) ++
            strBytes "\x7d)"

/-! ## Metainfo (src/src-tauri/src/torrent/mod.rs) -/

/-- File information: path components and length (`u64`). -/
structure FileInfo where
  path : List (List Nat)
  length : Nat
deriving Repr, DecidableEq

/-- Torrent info dictionary. -/
structure TorrentInfo where
  piece_length : Nat
  pieces : List Nat
  piece_count : Nat
  files : List FileInfo
  name : List Nat
  total_size : Nat
  is_single_file : Bool
deriving Repr, DecidableEq

/-- Parsed torrent metainfo. -/
structure Metainfo where
  announce : List Nat
  announce_list : List (List (List Nat))
  info : TorrentInfo
  info_hash : List Nat
  creation_date : Option Int
  comment : Option (List Nat)
  created_by : Option (List Nat)
deriving Repr, DecidableEq

/-- Rust `as u64` on an `i64`: reduce into `[0, 2^64)` two's-complement
style. -/
def i64_as_u64 (n : Int) : Nat := (n % (2 : Int) ^ 64).toNat

namespace Metainfo

/-- `Metainfo::calculate_info_hash`: parse, take the `info` value, and hash
its Debug rendering (the source's admitted placeholder — see the `TODO` in
the Rust function). -/
def calculate_info_hash (data : List Nat) : Except RError (List Nat) :=
  (BencodeValue.parse data).bind (fun root =>
    match root.as_dict with
    | none => .error (.metainfoError "root must be a dictionary")
    | some dict =>
        match dictGet dict (strBytes "info") with
        | none => .error (.metainfoError "missing info field")
        | some info_value =>
            .ok (Sha1.sha1 (debugBytesF (data.length + 1) info_value)))

end Metainfo

/-- The `for file_value in files_list` loop of `TorrentInfo::parse`:
per-file length and path extraction, empty-path rejection, and the running
total. -/
def parseFiles : List BencodeValue → Except RError (List FileInfo × Nat)
  | [] => .ok ([], 0)
  | file_value :: rest =>
      match file_value.as_dict with
      | none => .error (.metainfoError "file must be a dictionary")
      | some file_dict =>
          match (dictGet file_dict (strBytes "length")).bind
              BencodeValue.as_integer with
          | none => .error (.metainfoError "file missing length")
          | some length =>
              match (dictGet file_dict (strBytes "path")).bind
                  BencodeValue.as_list with
              | none => .error (.metainfoError "file missing path")
              | some path_list =>
                  let path := path_list.filterMap BencodeValue.as_str
                  if path.isEmpty then
                    .error (.metainfoError "empty file path")
                  else
                    (parseFiles rest).map (fun r =>
                      (FileInfo.mk path (i64_as_u64 length) :: r.1,
                        i64_as_u64 length + r.2))

namespace TorrentInfo

/-- `TorrentInfo::parse`. -/
def parse (value : BencodeValue) : Except RError TorrentInfo :=
  match value.as_dict with
  | none => .error (.metainfoError "info must be a dictionary")
  | some dict =>
      match ((dictGet dict (strBytes "piece length")).orElse
          (fun _ => dictGet dict (strBytes "piece_length"))).bind
          BencodeValue.as_integer with
      | none => .error (.metainfoError "missing piece length")
      | some piece_length =>
          match (dictGet dict (strBytes "pieces")).bind
              BencodeValue.as_bytes with
          | none => .error (.metainfoError "missing pieces")
          | some pieces =>
              if pieces.length % 20 ≠ 0 then
                .error (.metainfoError "pieces length must be multiple of 20")
              else
                match (dictGet dict (strBytes "name")).bind
                    BencodeValue.as_str with
                | none => .error (.metainfoError "missing name")
                | some name =>
                    match dictGet dict (strBytes "length") with
                    | some length_value =>
                        match length_value.as_integer with
                        | none => .error (.metainfoError "invalid length")
                        | some length =>
                            .ok { piece_length := i64_as_u64 piece_length
                                  pieces := pieces
                                  piece_count := pieces.length / 20
                                  files := [FileInfo.mk [name]
                                    (i64_as_u64 length)]
                                  name := name
                                  total_size := i64_as_u64 length
                                  is_single_file := true }
                    | none =>
                        match dictGet dict (strBytes "files") with
                        | none =>
                            .error (.metainfoError
                              "missing length or files field")
                        | some files_value =>
                            match files_value.as_list with
                            | none =>
                                .error (.metainfoError "files must be a list")
                            | some files_list =>
                                (parseFiles files_list).map (fun r =>
                                  { piece_length := i64_as_u64 piece_length
                                    pieces := pieces
                                    piece_count := pieces.length / 20
                                    files := r.1
                                    name := name
                                    total_size := r.2
                                    is_single_file := false })

end TorrentInfo

namespace Metainfo

/-- `Metainfo::from_bytes`. -/
def from_bytes (data : List Nat) : Except RError Metainfo :=
  (BencodeValue.parse data).bind (fun root =>
    match root.as_dict with
    | none => .error (.metainfoError "root must be a dictionary")
    | some dict =>
        match (dictGet dict (strBytes "announce")).bind
            BencodeValue.as_str with
        | none => .error (.metainfoError "missing announce field")
        | some announce =>
            let announce_list :=
              match (dictGet dict (strBytes "announce-list")).bind
                  BencodeValue.as_list with
              | none => []
              | some list =>
                  (list.filterMap BencodeValue.as_list).map (fun tier =>
                    tier.filterMap BencodeValue.as_str)
            match dictGet dict (strBytes "info") with
            | none => .error (.metainfoError "missing info field")
            | some info_value =>
                (calculate_info_hash data).bind (fun info_hash =>
                  (TorrentInfo.parse info_value).map (fun info =>
                    { announce := announce
                      announce_list := announce_list
                      info := info
                      info_hash := info_hash
                      creation_date := (dictGet dict
                        (strBytes "creation date")).bind
                        BencodeValue.as_integer
                      comment := (dictGet dict (strBytes "comment")).bind
                        BencodeValue.as_str
                      created_by := (dictGet dict
                        (strBytes "created by")).bind
                        BencodeValue.as_str })))

end Metainfo

end SeedCore
